import Mathlib

/-!
Shallow embedding of the payment engine: the per-account ledger state
machine (`src/client.rs`), transaction records (`src/transaction.rs`) and
the processing pipeline (`src/process.rs`).

Modelling conventions:
* monetary amounts (`f32` in the source) are modelled as exact rationals,
  following the numeric-semantics section of the design document (balances
  are decimal quantities; a conforming implementation uses exact decimal
  arithmetic).  This deliberately idealizes away f32 rounding: branch
  structure, error paths, state bookkeeping and ordering are
  arithmetic-parametric and carry over, while the two balance identities
  that rounding can break — the total = available + held invariant and the
  deposit/withdraw round trip — hold only of the exact model and fail on
  the f32 program at reachable inputs, as recorded on the corresponding
  theorems below;
* `u32` transaction ids and `u16` client ids are modelled as `Nat` — they
  are only ever used as map/set keys, never arithmetically;
* `HashMap<u32, (TransactionEnum, f32)>` is modelled as a function
  `Nat → Option (TransactionEnum × Rat)` with insert-overwrite update, and
  `SetU32` as a `Finset Nat`;
* the Rust methods take `&mut self` and return `Result<()>`; they are
  modelled as state-passing functions returning the outcome together with
  the state held by the mutable reference at the corresponding return
  point, so an early `?`-return yields exactly the state accumulated up to
  that point.
-/

/-- Transaction kinds, mirroring `TransactionEnum` in `src/transaction.rs`. -/
inductive TransactionEnum where
  | Deposit
  | Withdrawal
  | Dispute
  | Resolve
  | Chargeback
deriving DecidableEq, Repr

/-- Ledger error taxonomy.  The source reports errors as `anyhow` strings;
each constructor corresponds to one `bail!`/`anyhow!` site in
`src/client.rs`: `account_frozen`, `sufficient_funds`, `get_tx_val`, and the
two call directions of `disputed_status` (expected-undisputed vs
expected-disputed). -/
inductive LedgerError where
  | AccountFrozen
  | InsufficientFunds
  | UnknownTransaction
  | AlreadyDisputed
  | NotDisputed
deriving DecidableEq, Repr

/-- Client account state, mirroring `struct Client` in `src/client.rs`. -/
@[ext]
structure Client where
  balance_available : Rat
  balance_held : Rat
  balance_total : Rat
  transactions : Nat → Option (TransactionEnum × Rat)
  disputed_tx : Finset Nat
  previous_tx_id : Nat
  frozen : Bool

/-- `impl Default for Client`. -/
def Client.default : Client where
  balance_available := 0
  balance_held := 0
  balance_total := 0
  transactions := fun _ => none
  disputed_tx := ∅
  previous_tx_id := 0
  frozen := false

/-- `Client::chain_tx`: store the current transaction and remember its id. -/
def Client.chain_tx (c : Client) (tx_id : Nat) (tx_type : TransactionEnum)
    (tx_amount : Rat) : Client :=
  { c with
    previous_tx_id := tx_id
    transactions := fun k => if k = tx_id then some (tx_type, tx_amount) else c.transactions k }

/-- `Client::new`: a fresh account created from its first transaction.  The
initial balance is the amount for a Deposit and zero otherwise, and the
transaction is recorded into the history via `chain_tx` unconditionally. -/
def Client.new (tx_id : Nat) (tx_type : TransactionEnum) (tx_amount : Rat) : Client :=
  let balance :=
    match tx_type with
    | TransactionEnum.Deposit => tx_amount
    | _ => 0
  Client.chain_tx
    { Client.default with
      balance_available := balance
      balance_total := balance
      previous_tx_id := tx_id }
    tx_id tx_type tx_amount

/-- `Client::account_frozen`: error when the account is frozen. -/
def Client.account_frozen (c : Client) : Except LedgerError Bool :=
  if c.frozen then Except.error LedgerError.AccountFrozen
  else Except.ok c.frozen

/-- `Client::sufficient_funds`: error when the available balance is below
the requested amount. -/
def Client.sufficient_funds (c : Client) (tx_amount : Rat) : Except LedgerError Unit :=
  if c.balance_available ≥ tx_amount then Except.ok ()
  else Except.error LedgerError.InsufficientFunds

/-- `Client::disputed_status`: succeed when the membership of `tx_id` in
the disputed set equals `status`.  The source emits a single message text;
the error constructor here records which direction of the check failed. -/
def Client.disputed_status (c : Client) (tx_id : Nat) (status : Bool) :
    Except LedgerError Unit :=
  if decide (tx_id ∈ c.disputed_tx) = status then Except.ok ()
  else Except.error (if status then LedgerError.NotDisputed else LedgerError.AlreadyDisputed)

/-- `Client::get_tx_val`: look up the recorded amount of a past transaction. -/
def Client.get_tx_val (c : Client) (tx_id : Nat) : Except LedgerError Rat :=
  match c.transactions tx_id with
  | some p => Except.ok p.2
  | none => Except.error LedgerError.UnknownTransaction

/-- `Client::process_tx`: the single `apply` operation of the account
ledger state machine, dispatching on the transaction kind. -/
def Client.process_tx (c : Client) (tx_id : Nat) (tx_type : TransactionEnum)
    (tx_amount : Rat) : Except LedgerError Unit × Client :=
  match c.account_frozen with
  | Except.error e => (Except.error e, c)
  | Except.ok _ =>
    match tx_type with
    | TransactionEnum.Deposit =>
        let c1 := { c with balance_available := c.balance_available + tx_amount }
        let c2 := { c1 with balance_total := c1.balance_available + c1.balance_held }
        (Except.ok (), c2.chain_tx tx_id TransactionEnum.Deposit tx_amount)
    | TransactionEnum.Withdrawal =>
        match c.sufficient_funds tx_amount with
        | Except.error e => (Except.error e, c)
        | Except.ok _ =>
            let c1 := { c with balance_available := c.balance_available - tx_amount }
            let c2 := { c1 with balance_total := c1.balance_available + c1.balance_held }
            (Except.ok (), c2.chain_tx tx_id TransactionEnum.Withdrawal tx_amount)
    | TransactionEnum.Dispute =>
        match c.disputed_status tx_id false with
        | Except.error e => (Except.error e, c)
        | Except.ok _ =>
          match c.get_tx_val tx_id with
          | Except.error e => (Except.error e, c)
          | Except.ok disputed_val =>
            match c.sufficient_funds disputed_val with
            | Except.error e => (Except.error e, c)
            | Except.ok _ =>
                (Except.ok (),
                  { c with
                    balance_available := c.balance_available - disputed_val
                    balance_held := c.balance_held + disputed_val
                    disputed_tx := insert tx_id c.disputed_tx })
    | TransactionEnum.Resolve =>
        match c.disputed_status tx_id true with
        | Except.error e => (Except.error e, c)
        | Except.ok _ =>
          match c.get_tx_val tx_id with
          | Except.error e => (Except.error e, c)
          | Except.ok disputed_val =>
            if disputed_val ≤ c.balance_held then
              (Except.ok (),
                { c with
                  balance_available := c.balance_available + disputed_val
                  balance_held := c.balance_held - disputed_val
                  disputed_tx := c.disputed_tx.erase tx_id })
            else (Except.ok (), c)
    | TransactionEnum.Chargeback =>
        match c.disputed_status tx_id true with
        | Except.error e => (Except.error e, c)
        | Except.ok _ =>
          match c.get_tx_val tx_id with
          | Except.error e => (Except.error e, c)
          | Except.ok disputed_val =>
            if disputed_val ≤ c.balance_held then
              (Except.ok (),
                { c with
                  frozen := true
                  balance_held := c.balance_held - disputed_val
                  balance_total := c.balance_total - disputed_val
                  disputed_tx := c.disputed_tx.erase tx_id })
            else (Except.ok (), c)

/-- Transaction record, mirroring `struct Transaction` in
`src/transaction.rs` (the amount defaults to zero for the three
referencing kinds). -/
structure Transaction where
  tx_type : TransactionEnum
  client_id : Nat
  tx_id : Nat
  tx_amount : Rat

/-- The ledger registry: `HashMap<u16, Client>` in
`ProcessTransactionsTask`, modelled as a partial map from client ids. -/
abbrev Clients := Nat → Option Client

/-- One iteration of the `ProcessTransactionsTask::run` loop on a received
transaction: `entry(client_id).and_modify(process_tx).or_insert_with(new)`.
A processing error is logged and otherwise ignored. -/
def step (clients : Clients) (tx : Transaction) : Clients :=
  match clients tx.client_id with
  | some client =>
      fun k =>
        if k = tx.client_id
        then some (client.process_tx tx.tx_id tx.tx_type tx.tx_amount).2
        else clients k
  | none =>
      fun k =>
        if k = tx.client_id
        then some (Client.new tx.tx_id tx.tx_type tx.tx_amount)
        else clients k

/-- The registry before any transaction arrives. -/
def initClients : Clients := fun _ => none

/-- The registry produced by running the processing loop over a whole
inbound sequence, in order. -/
def processAll (txs : List Transaction) : Clients :=
  txs.foldl step initClients

/-- Fold a list of `(tx_id, kind, amount)` calls through `process_tx`,
keeping only the account state (the caller logs and drops errors). -/
def applyTxs (c : Client) (l : List (Nat × TransactionEnum × Rat)) : Client :=
  l.foldl (fun s t => (s.process_tx t.1 t.2.1 t.2.2).2) c

/-- The arithmetic balance invariant of an account. -/
def BalanceInv (c : Client) : Prop :=
  c.balance_total = c.balance_available + c.balance_held

/-- The disputed set only references transaction ids present in the
history. -/
def DisputedSub (c : Client) : Prop :=
  ∀ t ∈ c.disputed_tx, (c.transactions t).isSome = true

theorem process_tx_frozen (c : Client) (i : Nat) (k : TransactionEnum) (a : Rat)
    (h : c.frozen = true) :
    c.process_tx i k a = (Except.error LedgerError.AccountFrozen, c) := by
  simp [Client.process_tx, Client.account_frozen, h]

theorem applyTxs_frozen (l : List (Nat × TransactionEnum × Rat)) :
    ∀ c : Client, c.frozen = true → (applyTxs c l).frozen = true := by
  induction l with
  | nil => intro c h; exact h
  | cons t ts ih =>
      intro c h
      have hc := process_tx_frozen c t.1 t.2.1 t.2.2 h
      simp only [applyTxs, List.foldl_cons] at *
      rw [hc]
      exact ih c h

theorem process_tx_ok_or_eq (c : Client) (i : Nat) (k : TransactionEnum) (a : Rat) :
    (c.process_tx i k a).1 = Except.ok () ∨ (c.process_tx i k a).2 = c := by
  unfold Client.process_tx
  repeat' split
  all_goals simp

/-- C3: once the frozen flag is true it never becomes false again under any
sequence of transactions, and every apply call on a frozen account returns
the AccountFrozen error and leaves the state unchanged. -/
theorem claim3_frozen_terminal :
    (∀ (c : Client) (i : Nat) (k : TransactionEnum) (a : Rat), c.frozen = true →
      c.process_tx i k a = (Except.error LedgerError.AccountFrozen, c)) ∧
    (∀ (c : Client) (l : List (Nat × TransactionEnum × Rat)), c.frozen = true →
      (applyTxs c l).frozen = true) :=
  ⟨process_tx_frozen, fun c l h => applyTxs_frozen l c h⟩

/-- A concrete frozen account, used to instantiate the frozen-account
claims. -/
def frozenClient : Client := { Client.default with frozen := true }

theorem claim3_frozen_terminal_witness :
    frozenClient.process_tx 1 TransactionEnum.Deposit 5 =
      (Except.error LedgerError.AccountFrozen, frozenClient) ∧
    (applyTxs frozenClient [(2, TransactionEnum.Withdrawal, 3)]).frozen = true :=
  ⟨claim3_frozen_terminal.1 frozenClient 1 TransactionEnum.Deposit 5 rfl,
   claim3_frozen_terminal.2 frozenClient [(2, TransactionEnum.Withdrawal, 3)] rfl⟩

/-- C4: whenever process_tx returns an error, every field of the account is
exactly as it was before the call (the returned state is the input state). -/
theorem claim4_error_leaves_state (c : Client) (i : Nat) (k : TransactionEnum)
    (a : Rat) (e : LedgerError) (h : (c.process_tx i k a).1 = Except.error e) :
    (c.process_tx i k a).2 = c := by
  rcases process_tx_ok_or_eq c i k a with hok | heq
  · rw [h] at hok
    exact absurd hok (by simp)
  · exact heq

theorem claim4_error_leaves_state_witness :
    (frozenClient.process_tx 1 TransactionEnum.Deposit 5).1 =
      Except.error LedgerError.AccountFrozen ∧
    (frozenClient.process_tx 1 TransactionEnum.Deposit 5).2 = frozenClient :=
  ⟨by simp [Client.process_tx, Client.account_frozen, frozenClient],
   claim4_error_leaves_state frozenClient 1 TransactionEnum.Deposit 5
     LedgerError.AccountFrozen
     (by simp [Client.process_tx, Client.account_frozen, frozenClient])⟩

theorem balanceInv_new (i : Nat) (k : TransactionEnum) (a : Rat) :
    BalanceInv (Client.new i k a) := by
  unfold BalanceInv Client.new Client.chain_tx Client.default
  cases k <;> simp

theorem balanceInv_process (c : Client) (i : Nat) (k : TransactionEnum) (a : Rat)
    (h : BalanceInv c) : BalanceInv (c.process_tx i k a).2 := by
  unfold BalanceInv at *
  unfold Client.process_tx Client.chain_tx
  repeat' split
  all_goals simp
  all_goals (rw [h]; try ring)

theorem step_preserves (P : Client → Prop)
    (hnew : ∀ (i : Nat) (k : TransactionEnum) (a : Rat), P (Client.new i k a))
    (hproc : ∀ (c : Client) (i : Nat) (k : TransactionEnum) (a : Rat),
        P c → P (c.process_tx i k a).2)
    (clients : Clients) (hcl : ∀ cid c, clients cid = some c → P c)
    (tx : Transaction) :
    ∀ cid c, step clients tx cid = some c → P c := by
  intro cid c hc
  unfold step at hc
  cases hl : clients tx.client_id with
  | some cl =>
      rw [hl] at hc
      simp only at hc
      split at hc
      · injection hc with h
        exact h ▸ hproc cl tx.tx_id tx.tx_type tx.tx_amount (hcl _ cl hl)
      · exact hcl _ _ hc
  | none =>
      rw [hl] at hc
      simp only at hc
      split at hc
      · injection hc with h
        exact h ▸ hnew tx.tx_id tx.tx_type tx.tx_amount
      · exact hcl _ _ hc

theorem foldl_preserves (P : Client → Prop)
    (hnew : ∀ (i : Nat) (k : TransactionEnum) (a : Rat), P (Client.new i k a))
    (hproc : ∀ (c : Client) (i : Nat) (k : TransactionEnum) (a : Rat),
        P c → P (c.process_tx i k a).2) :
    ∀ (txs : List Transaction) (clients : Clients),
      (∀ cid c, clients cid = some c → P c) →
      ∀ cid c, txs.foldl step clients cid = some c → P c := by
  intro txs
  induction txs with
  | nil => intro clients h cid c hc; exact h cid c hc
  | cons t ts ih =>
      intro clients h cid c hc
      rw [List.foldl_cons] at hc
      exact ih (step clients t) (step_preserves P hnew hproc clients h t) cid c hc

theorem processAll_preserves (P : Client → Prop)
    (hnew : ∀ (i : Nat) (k : TransactionEnum) (a : Rat), P (Client.new i k a))
    (hproc : ∀ (c : Client) (i : Nat) (k : TransactionEnum) (a : Rat),
        P c → P (c.process_tx i k a).2) :
    ∀ (txs : List Transaction) (cid : Nat) (c : Client),
      processAll txs cid = some c → P c :=
  fun txs => foldl_preserves P hnew hproc txs initClients
    (fun cid c h => by simp [initClients] at h)

/-- C1 (code bug in the source): in the exact-rational model, the balance
invariant total = available + held is preserved by every process_tx call
(on either outcome), holds immediately after an account is created from
its first transaction, and therefore holds for every account reachable by
any sequence of applied transactions.  The source performs this arithmetic
in f32, where the Dispute branch moves funds between available and held
with two independently rounded operations and never recomputes total, so
the invariant fails on the real program at a reachable input: for one
client, deposit(tx 1, 16777216); deposit(tx 2, 2); dispute(tx 1);
withdrawal(tx 3, 0.5); dispute(tx 3) all succeed and end with
available = 1.0 and held = 16777216.0 (the 0.5 is absorbed by rounding),
but total = 16777218.0, while available + held = 16777217.  This theorem
therefore isolates the defect to the floating-point rounding: the
transition structure itself preserves the invariant exactly. -/
theorem claim1_balance_invariant :
    (∀ (c : Client) (i : Nat) (k : TransactionEnum) (a : Rat),
        BalanceInv c → BalanceInv (c.process_tx i k a).2) ∧
    (∀ (i : Nat) (k : TransactionEnum) (a : Rat), BalanceInv (Client.new i k a)) ∧
    (∀ (txs : List Transaction) (cid : Nat) (c : Client),
        processAll txs cid = some c → BalanceInv c) :=
  ⟨balanceInv_process, balanceInv_new,
   processAll_preserves BalanceInv balanceInv_new balanceInv_process⟩

theorem claim1_balance_invariant_witness :
    BalanceInv ((Client.new 1 TransactionEnum.Deposit 5).process_tx 2
      TransactionEnum.Withdrawal 3).2 ∧
    BalanceInv (Client.new 3 TransactionEnum.Dispute 0) ∧
    BalanceInv (Client.new 1 TransactionEnum.Deposit 5) :=
  ⟨claim1_balance_invariant.1 _ 2 TransactionEnum.Withdrawal 3
      (claim1_balance_invariant.2.1 1 TransactionEnum.Deposit 5),
   claim1_balance_invariant.2.1 3 TransactionEnum.Dispute 0,
   claim1_balance_invariant.2.2 [⟨TransactionEnum.Deposit, 4, 1, 5⟩] 4 _ rfl⟩

theorem disputedSub_new (i : Nat) (k : TransactionEnum) (a : Rat) :
    DisputedSub (Client.new i k a) := by
  intro t ht
  simp [Client.new, Client.chain_tx, Client.default] at ht

theorem disputedSub_process (c : Client) (i : Nat) (k : TransactionEnum) (a : Rat)
    (h : DisputedSub c) : DisputedSub (c.process_tx i k a).2 := by
  unfold Client.process_tx
  repeat' split
  all_goals try exact h
  all_goals intro t ht
  all_goals first
    | exact h t (Finset.mem_of_mem_erase ht)
    | (rcases Finset.mem_insert.mp ht with rfl | hmem
       · cases hc : c.transactions t with
         | some p => simp
         | none => simp_all [Client.get_tx_val]
       · exact h t hmem)
    | (by_cases hti : t = i
       · simp [Client.chain_tx, hti]
       · simpa [Client.chain_tx, hti] using h t ht)

/-- C5 counterexample: an account created by a first Dispute transaction is
reachable and its history holds an entry of kind Dispute (amount 0); a
second Dispute of the same id then succeeds, so the disputed set contains
an id whose history entry does not carry Deposit or Withdrawal kind. -/
theorem claim5_history_kinds_counterexample :
    ((processAll [⟨TransactionEnum.Dispute, 3, 9, 0⟩,
        ⟨TransactionEnum.Dispute, 3, 9, 0⟩] 3).map
      (fun c => (c.transactions 9, decide (9 ∈ c.disputed_tx)))) =
      some (some (TransactionEnum.Dispute, 0), true) := by
  rfl

/-- C5 amended: the Dispute/Resolve/Chargeback branches of process_tx never
modify the history; only the Deposit/Withdrawal branches — and account
creation, which records the first transaction whatever its kind — create
history entries, so a history entry need not carry Deposit or Withdrawal
kind.  For every reachable account the disputed set is a subset of the
keys of the history (without the kind restriction). -/
theorem claim5_history_kinds_amended :
    (∀ (c : Client) (i : Nat) (a : Rat),
       (c.process_tx i TransactionEnum.Dispute a).2.transactions = c.transactions ∧
       (c.process_tx i TransactionEnum.Resolve a).2.transactions = c.transactions ∧
       (c.process_tx i TransactionEnum.Chargeback a).2.transactions = c.transactions) ∧
    (∀ (txs : List Transaction) (cid : Nat) (c : Client),
       processAll txs cid = some c → DisputedSub c) := by
  constructor
  · intro c i a
    refine ⟨?_, ?_, ?_⟩
    all_goals unfold Client.process_tx
    all_goals repeat' split
    all_goals first | rfl | (exfalso; simp_all)
  · exact processAll_preserves DisputedSub disputedSub_new disputedSub_process

theorem claim5_history_kinds_amended_witness :
    ((Client.new 1 TransactionEnum.Deposit 5).process_tx 1
        TransactionEnum.Dispute 0).2.transactions =
      (Client.new 1 TransactionEnum.Deposit 5).transactions ∧
    DisputedSub (Client.new 9 TransactionEnum.Dispute 0) :=
  ⟨(claim5_history_kinds_amended.1 (Client.new 1 TransactionEnum.Deposit 5) 1 0).1,
   claim5_history_kinds_amended.2 [⟨TransactionEnum.Dispute, 3, 9, 0⟩] 3 _ rfl⟩

/-- C2 counterexample: a first Withdrawal of 5 for an absent client.  The
code (route through `Client::new`) yields zero balances, no error, and a
`(Withdrawal, 5)` history entry; creating a zero-balance ledger and then
dispatching the same transaction through apply instead fails with
InsufficientFunds and records no history entry — so the two disagree. -/
theorem claim2_first_tx_counterexample :
    ((processAll [⟨TransactionEnum.Withdrawal, 7, 1, 5⟩] 7).map
        (fun c => c.transactions 1)) =
      some (some (TransactionEnum.Withdrawal, 5)) ∧
    (Client.default.process_tx 1 TransactionEnum.Withdrawal 5).1 =
      Except.error LedgerError.InsufficientFunds ∧
    (Client.default.process_tx 1 TransactionEnum.Withdrawal 5).2.transactions 1 =
      none := by
  refine ⟨?_, ?_, ?_⟩ <;> rfl

/-- C2 amended: processing a transaction for a client id not yet present
creates the ledger via `Client::new` — balance equal to the amount for
Deposit and zero otherwise — and records the `(kind, amount)` pair into the
history unconditionally, without dispatching the transaction through apply
and without any error outcome; only for a Deposit does this coincide with
creating a zero-balance ledger and then applying the transaction. -/
theorem claim2_first_tx_amended (k : TransactionEnum) (cid i : Nat) (a : Rat)
    (clients : Clients) (habs : clients cid = none) :
    step clients ⟨k, cid, i, a⟩ cid = some (Client.new i k a) ∧
    (Client.new i k a).transactions i = some (k, a) ∧
    (Client.new i k a).balance_available =
      (match k with | TransactionEnum.Deposit => a | _ => 0) ∧
    (Client.new i k a).balance_held = 0 ∧
    (Client.new i k a).balance_total =
      (match k with | TransactionEnum.Deposit => a | _ => 0) ∧
    (k = TransactionEnum.Deposit →
      Client.new i k a = (Client.default.process_tx i k a).2) := by
  refine ⟨?_, ?_, ?_, ?_, ?_, ?_⟩
  · simp [step, habs]
  · simp [Client.new, Client.chain_tx]
  · cases k <;> rfl
  · rfl
  · cases k <;> rfl
  · intro hk
    subst hk
    have htr : (Client.new i TransactionEnum.Deposit a).transactions =
        ((Client.default.process_tx i TransactionEnum.Deposit a).2).transactions := by
      funext kk
      simp [Client.new, Client.chain_tx, Client.default, Client.process_tx,
        Client.account_frozen]
    apply Client.ext
    all_goals first
      | exact htr
      | simp [Client.new, Client.chain_tx, Client.default, Client.process_tx,
          Client.account_frozen]

theorem claim2_first_tx_amended_witness :
    step initClients ⟨TransactionEnum.Withdrawal, 7, 1, 5⟩ 7 =
      some (Client.new 1 TransactionEnum.Withdrawal 5) ∧
    (Client.new 1 TransactionEnum.Withdrawal 5).transactions 1 =
      some (TransactionEnum.Withdrawal, 5) ∧
    (Client.new 1 TransactionEnum.Withdrawal 5).balance_available = 0 ∧
    Client.new 2 TransactionEnum.Deposit 9 =
      (Client.default.process_tx 2 TransactionEnum.Deposit 9).2 :=
  ⟨(claim2_first_tx_amended TransactionEnum.Withdrawal 7 1 5 initClients rfl).1,
   (claim2_first_tx_amended TransactionEnum.Withdrawal 7 1 5 initClients rfl).2.1,
   (claim2_first_tx_amended TransactionEnum.Withdrawal 7 1 5 initClients rfl).2.2.1,
   (claim2_first_tx_amended TransactionEnum.Deposit 7 2 9 initClients rfl).2.2.2.2.2 rfl⟩

/-- C6: on an unfrozen account (whose disputed set references only history
keys, an invariant of all reachable accounts), a Dispute of tx_id fails
with UnknownTransaction when tx_id is not in the history, fails with
AlreadyDisputed when tx_id is already disputed, fails with
InsufficientFunds when available < the recorded amount, and otherwise moves
the recorded amount from available to held, adds tx_id to the disputed set,
and leaves the total (and every other field) unchanged. -/
theorem claim6_dispute_semantics (c : Client) (tx_id : Nat) (a : Rat)
    (hfr : c.frozen = false)
    (hsub : ∀ t ∈ c.disputed_tx, (c.transactions t).isSome = true) :
    (c.transactions tx_id = none →
      c.process_tx tx_id TransactionEnum.Dispute a =
        (Except.error LedgerError.UnknownTransaction, c)) ∧
    (tx_id ∈ c.disputed_tx →
      c.process_tx tx_id TransactionEnum.Dispute a =
        (Except.error LedgerError.AlreadyDisputed, c)) ∧
    (∀ (k0 : TransactionEnum) (v : Rat), c.transactions tx_id = some (k0, v) →
      tx_id ∉ c.disputed_tx → c.balance_available < v →
      c.process_tx tx_id TransactionEnum.Dispute a =
        (Except.error LedgerError.InsufficientFunds, c)) ∧
    (∀ (k0 : TransactionEnum) (v : Rat), c.transactions tx_id = some (k0, v) →
      tx_id ∉ c.disputed_tx → c.balance_available ≥ v →
      c.process_tx tx_id TransactionEnum.Dispute a =
        (Except.ok (),
         { c with
           balance_available := c.balance_available - v
           balance_held := c.balance_held + v
           disputed_tx := insert tx_id c.disputed_tx })) := by
  have h1 : c.account_frozen = Except.ok false := by
    simp [Client.account_frozen, hfr]
  refine ⟨?_, ?_, ?_, ?_⟩
  · intro hnone
    have hnd : tx_id ∉ c.disputed_tx := by
      intro hm
      have hsome := hsub tx_id hm
      rw [hnone] at hsome
      simp at hsome
    have h2 : c.disputed_status tx_id false = Except.ok () := by
      simp [Client.disputed_status, hnd]
    have h3 : c.get_tx_val tx_id = Except.error LedgerError.UnknownTransaction := by
      simp [Client.get_tx_val, hnone]
    simp [Client.process_tx, h1, h2, h3]
  · intro hmem
    have h2 : c.disputed_status tx_id false =
        Except.error LedgerError.AlreadyDisputed := by
      simp [Client.disputed_status, hmem]
    simp [Client.process_tx, h1, h2]
  · intro k0 v hist hnd hlt
    have h2 : c.disputed_status tx_id false = Except.ok () := by
      simp [Client.disputed_status, hnd]
    have h3 : c.get_tx_val tx_id = Except.ok v := by
      simp [Client.get_tx_val, hist]
    have h4 : c.sufficient_funds v = Except.error LedgerError.InsufficientFunds := by
      simp [Client.sufficient_funds, not_le.mpr hlt]
    simp [Client.process_tx, h1, h2, h3, h4]
  · intro k0 v hist hnd hge
    have h2 : c.disputed_status tx_id false = Except.ok () := by
      simp [Client.disputed_status, hnd]
    have h3 : c.get_tx_val tx_id = Except.ok v := by
      simp [Client.get_tx_val, hist]
    have h4 : c.sufficient_funds v = Except.ok () := by
      simp [Client.sufficient_funds, hge]
    simp [Client.process_tx, h1, h2, h3, h4]

theorem claim6_dispute_semantics_witness :
    (Client.new 1 TransactionEnum.Deposit 5).transactions 1 =
      some (TransactionEnum.Deposit, 5) ∧
    (Client.new 1 TransactionEnum.Deposit 5).process_tx 1 TransactionEnum.Dispute 0 =
      (Except.ok (),
       { Client.new 1 TransactionEnum.Deposit 5 with
         balance_available := (Client.new 1 TransactionEnum.Deposit 5).balance_available - 5
         balance_held := (Client.new 1 TransactionEnum.Deposit 5).balance_held + 5
         disputed_tx := insert 1 (Client.new 1 TransactionEnum.Deposit 5).disputed_tx }) :=
  ⟨rfl,
   (claim6_dispute_semantics (Client.new 1 TransactionEnum.Deposit 5) 1 0 rfl
      (by decide)).2.2.2 TransactionEnum.Deposit 5 rfl (by decide) (by decide)⟩

/-- C7: on an unfrozen account, a Chargeback of tx_id fails with
NotDisputed when tx_id is not in the disputed set; otherwise, with v the
recorded amount of tx_id, if v ≤ held it freezes the account, decreases
held and total by v and removes tx_id from the disputed set, while if
v > held it returns success and changes nothing. -/
theorem claim7_chargeback_semantics (c : Client) (tx_id : Nat) (a : Rat)
    (hfr : c.frozen = false) :
    (tx_id ∉ c.disputed_tx →
      c.process_tx tx_id TransactionEnum.Chargeback a =
        (Except.error LedgerError.NotDisputed, c)) ∧
    (∀ (k0 : TransactionEnum) (v : Rat), tx_id ∈ c.disputed_tx →
      c.transactions tx_id = some (k0, v) → v ≤ c.balance_held →
      c.process_tx tx_id TransactionEnum.Chargeback a =
        (Except.ok (),
         { c with
           frozen := true
           balance_held := c.balance_held - v
           balance_total := c.balance_total - v
           disputed_tx := c.disputed_tx.erase tx_id })) ∧
    (∀ (k0 : TransactionEnum) (v : Rat), tx_id ∈ c.disputed_tx →
      c.transactions tx_id = some (k0, v) → c.balance_held < v →
      c.process_tx tx_id TransactionEnum.Chargeback a = (Except.ok (), c)) := by
  have h1 : c.account_frozen = Except.ok false := by
    simp [Client.account_frozen, hfr]
  refine ⟨?_, ?_, ?_⟩
  · intro hnd
    have h2 : c.disputed_status tx_id true =
        Except.error LedgerError.NotDisputed := by
      simp [Client.disputed_status, hnd]
    simp [Client.process_tx, h1, h2]
  · intro k0 v hmem hist hle
    have h2 : c.disputed_status tx_id true = Except.ok () := by
      simp [Client.disputed_status, hmem]
    have h3 : c.get_tx_val tx_id = Except.ok v := by
      simp [Client.get_tx_val, hist]
    simp [Client.process_tx, h1, h2, h3, hle]
  · intro k0 v hmem hist hgt
    have h2 : c.disputed_status tx_id true = Except.ok () := by
      simp [Client.disputed_status, hmem]
    have h3 : c.get_tx_val tx_id = Except.ok v := by
      simp [Client.get_tx_val, hist]
    simp [Client.process_tx, h1, h2, h3, not_le.mpr hgt]

/-- A concrete account holding a disputed deposit of 5 (the state reached
by a deposit of 5 with tx 1 followed by a dispute of tx 1). -/
def disputedClient : Client where
  balance_available := 0
  balance_held := 5
  balance_total := 5
  transactions := fun k => if k = 1 then some (TransactionEnum.Deposit, 5) else none
  disputed_tx := {1}
  previous_tx_id := 1
  frozen := false

theorem claim7_chargeback_semantics_witness :
    disputedClient.process_tx 1 TransactionEnum.Chargeback 0 =
      (Except.ok (),
       { disputedClient with
         frozen := true
         balance_held := disputedClient.balance_held - 5
         balance_total := disputedClient.balance_total - 5
         disputed_tx := disputedClient.disputed_tx.erase 1 }) :=
  (claim7_chargeback_semantics disputedClient 1 0 rfl).2.1 TransactionEnum.Deposit 5
    (by decide) rfl (by decide)

/-- C8 (code bug in the source): in the exact-rational model, on an
unfrozen account satisfying the balance invariant, a Deposit of x followed
immediately by a Withdrawal of the same x (any tx ids) returns available
and total to their pre-deposit values, provided the withdrawal
precondition available ≥ x holds after the deposit.  In the f32 arithmetic
of the source the round trip fails at a reachable input: with
available = 0.5, a deposit of 16777216 rounds 0.5 + 16777216 to 16777216
(absorption), the withdrawal precondition available ≥ 16777216 still
holds, and the withdrawal then leaves available = 0.0 and total = 0.0
instead of the pre-deposit 0.5.  The round trip is thus a property of the
transition structure under exact arithmetic only. -/
theorem claim8_deposit_withdraw_roundtrip (c : Client) (i j : Nat) (x : Rat)
    (hfr : c.frozen = false) (hinv : BalanceInv c)
    (hge : c.balance_available + x ≥ x) :
    (((c.process_tx i TransactionEnum.Deposit x).2.process_tx j
        TransactionEnum.Withdrawal x).2).balance_available = c.balance_available ∧
    (((c.process_tx i TransactionEnum.Deposit x).2.process_tx j
        TransactionEnum.Withdrawal x).2).balance_total = c.balance_total := by
  have h1 : c.account_frozen = Except.ok false := by
    simp [Client.account_frozen, hfr]
  generalize hD : (c.process_tx i TransactionEnum.Deposit x).2 = d
  have hda : d.balance_available = c.balance_available + x := by
    rw [← hD]
    simp [Client.process_tx, h1, Client.chain_tx]
  have hdh : d.balance_held = c.balance_held := by
    rw [← hD]
    simp [Client.process_tx, h1, Client.chain_tx]
  have hdf : d.frozen = false := by
    rw [← hD]
    simp [Client.process_tx, h1, Client.chain_tx, hfr]
  have h2 : d.account_frozen = Except.ok false := by
    simp [Client.account_frozen, hdf]
  have h3 : d.sufficient_funds x = Except.ok () := by
    simp [Client.sufficient_funds, hda, hge]
  constructor
  · have hwa : ((d.process_tx j TransactionEnum.Withdrawal x).2).balance_available =
        d.balance_available - x := by
      simp [Client.process_tx, h2, h3, Client.chain_tx]
    rw [hwa, hda]
    ring
  · have hwt : ((d.process_tx j TransactionEnum.Withdrawal x).2).balance_total =
        (d.balance_available - x) + d.balance_held := by
      simp [Client.process_tx, h2, h3, Client.chain_tx]
    rw [hwt, hda, hdh]
    unfold BalanceInv at hinv
    rw [hinv]
    ring

theorem claim8_deposit_withdraw_roundtrip_witness :
    (((Client.new 1 TransactionEnum.Deposit 5).process_tx 2
        TransactionEnum.Deposit 7).2.process_tx 3
        TransactionEnum.Withdrawal 7).2.balance_available =
      (Client.new 1 TransactionEnum.Deposit 5).balance_available ∧
    (((Client.new 1 TransactionEnum.Deposit 5).process_tx 2
        TransactionEnum.Deposit 7).2.process_tx 3
        TransactionEnum.Withdrawal 7).2.balance_total =
      (Client.new 1 TransactionEnum.Deposit 5).balance_total :=
  claim8_deposit_withdraw_roundtrip (Client.new 1 TransactionEnum.Deposit 5) 2 3 7
    rfl (by simp [BalanceInv, Client.new, Client.chain_tx, Client.default])
    (by norm_num [Client.new, Client.chain_tx, Client.default])

/-- C10: on an unfrozen account, a Deposit or Withdrawal whose tx_id
already exists in the history succeeds like any other and overwrites the
existing entry with the new (kind, amount) pair, so a later lookup
(`get_tx_val`, as used by Dispute) returns the most recently recorded
amount. -/
theorem claim10_overwrite_history (c : Client) (i : Nat) (k0 : TransactionEnum)
    (v0 x : Rat) (hfr : c.frozen = false)
    (hist : c.transactions i = some (k0, v0)) :
    ((c.process_tx i TransactionEnum.Deposit x).1 = Except.ok () ∧
     (c.process_tx i TransactionEnum.Deposit x).2.transactions i =
       some (TransactionEnum.Deposit, x) ∧
     (c.process_tx i TransactionEnum.Deposit x).2.get_tx_val i = Except.ok x) ∧
    (c.balance_available ≥ x →
      ((c.process_tx i TransactionEnum.Withdrawal x).1 = Except.ok () ∧
       (c.process_tx i TransactionEnum.Withdrawal x).2.transactions i =
         some (TransactionEnum.Withdrawal, x) ∧
       (c.process_tx i TransactionEnum.Withdrawal x).2.get_tx_val i =
         Except.ok x)) := by
  have h1 : c.account_frozen = Except.ok false := by
    simp [Client.account_frozen, hfr]
  constructor
  · refine ⟨?_, ?_, ?_⟩
    · simp [Client.process_tx, h1]
    · simp [Client.process_tx, h1, Client.chain_tx]
    · simp [Client.process_tx, h1, Client.chain_tx, Client.get_tx_val]
  · intro hge
    have h3 : c.sufficient_funds x = Except.ok () := by
      simp [Client.sufficient_funds, hge]
    refine ⟨?_, ?_, ?_⟩
    · simp [Client.process_tx, h1, h3]
    · simp [Client.process_tx, h1, h3, Client.chain_tx]
    · simp [Client.process_tx, h1, h3, Client.chain_tx, Client.get_tx_val]

theorem claim10_overwrite_history_witness :
    ((Client.new 1 TransactionEnum.Deposit 5).process_tx 1
        TransactionEnum.Deposit 9).2.transactions 1 =
      some (TransactionEnum.Deposit, 9) ∧
    ((Client.new 1 TransactionEnum.Deposit 5).process_tx 1
        TransactionEnum.Withdrawal 4).2.transactions 1 =
      some (TransactionEnum.Withdrawal, 4) :=
  ⟨(claim10_overwrite_history (Client.new 1 TransactionEnum.Deposit 5) 1
      TransactionEnum.Deposit 5 9 rfl rfl).1.2.1,
   ((claim10_overwrite_history (Client.new 1 TransactionEnum.Deposit 5) 1
      TransactionEnum.Deposit 5 4 rfl rfl).2 (by decide)).2.1⟩

/-- Joint state of the ingestion side, the inbound FIFO channel and the
processing task of `ProcessTransactionsTask::run`. -/
structure PipelineState where
  pending : List Transaction
  queue : List Transaction
  clients : Clients

/-- One interleaved action of the pipeline: either the ingestion side
submits its next record to the back of the FIFO channel (`send` on the
unbounded mpsc channel), or the processing task receives the channel head
(`try_recv`) and applies it to the registry.  The FIFO discipline of the
channel is the modelling assumption for the transport. -/
inductive PipelineStep : PipelineState → PipelineState → Prop where
  | submit (tx : Transaction) (rest q : List Transaction) (cl : Clients) :
      PipelineStep ⟨tx :: rest, q, cl⟩ ⟨rest, q ++ [tx], cl⟩
  | consume (p : List Transaction) (tx : Transaction) (q : List Transaction)
      (cl : Clients) :
      PipelineStep ⟨p, tx :: q, cl⟩ ⟨p, q, step cl tx⟩

theorem pipeline_step_inv {s s2 : PipelineState} (h : PipelineStep s s2) :
    (s2.queue ++ s2.pending).foldl step s2.clients =
      (s.queue ++ s.pending).foldl step s.clients := by
  cases h with
  | submit tx rest q cl => simp [List.append_assoc]
  | consume p tx q cl => simp [List.foldl_cons]

theorem pipeline_reach_inv {s s2 : PipelineState}
    (h : Relation.ReflTransGen PipelineStep s s2) :
    (s2.queue ++ s2.pending).foldl step s2.clients =
      (s.queue ++ s.pending).foldl step s.clients := by
  induction h with
  | refl => rfl
  | tail hab hbc ih => exact (pipeline_step_inv hbc).trans ih

/-- C9: for every complete interleaved execution of the pipeline that
starts with the whole input sequence pending, an empty channel and an empty
registry, and ends with everything submitted and the channel drained, the
final registry equals the sequential left fold of the input sequence over
the empty registry, in submission order — no reordering or coalescing. -/
theorem claim9_pipeline_order (inputs : List Transaction) (final : Clients)
    (h : Relation.ReflTransGen PipelineStep ⟨inputs, [], initClients⟩
      ⟨[], [], final⟩) :
    final = processAll inputs := by
  have hh := pipeline_reach_inv h
  simpa [processAll] using hh

theorem claim9_pipeline_order_witness :
    step initClients ⟨TransactionEnum.Deposit, 1, 1, 5⟩ =
      processAll [⟨TransactionEnum.Deposit, 1, 1, 5⟩] :=
  claim9_pipeline_order [⟨TransactionEnum.Deposit, 1, 1, 5⟩]
    (step initClients ⟨TransactionEnum.Deposit, 1, 1, 5⟩)
    (Relation.ReflTransGen.head
      (PipelineStep.submit ⟨TransactionEnum.Deposit, 1, 1, 5⟩ [] [] initClients)
      (Relation.ReflTransGen.single
        (PipelineStep.consume [] ⟨TransactionEnum.Deposit, 1, 1, 5⟩ []
          initClients)))
